import Mathlib

/-!
Verification development for the numerical-integration module
`src/shogun/mathematics/Integration.h` (class `CIntegration`).

The repository fragment contains only the header: the declarations,
default arguments and parameter types of `integrate_quadgk`,
`integrate_quadgh` and their private helpers, together with their doc
comments.  The implementation file is not part of the fragment, so the
bodies below are modelled from the specification (see the doc comment of
each definition).  Machine doubles (`float64_t`) are embedded as exact
rationals `ℚ`; the unsigned 32-bit parameter `uint32_t max_iter` is
embedded as `Fin (2 ^ 32)`; the signed 32-bit `index_t sn` is embedded
as `ℤ`; the caller-supplied `CFunction` capability is embedded as a
function `ℚ → ℚ`; the `CDynamicArray<float64_t>` working storage is
embedded as `List ℚ`.  To make invocations of the caller's function
observable, every operation that may evaluate it also returns the list
of arguments it was evaluated at, in order.
-/

/-- Embedding of a `float64_t` bound of integration, which may be a
finite value, `-∞` or `+∞`. -/
inductive Bnd where
  | ninf : Bnd
  | fin : ℚ → Bnd
  | pinf : Bnd
deriving DecidableEq

/-- Strict order on bounds, mirroring the IEEE comparison of two
`float64_t` values of which each may be `-∞`, finite or `+∞`. -/
def Bnd.blt : Bnd → Bnd → Bool
  | .ninf, .fin _ => true
  | .ninf, .pinf => true
  | .fin _, .pinf => true
  | .fin p, .fin q => decide (p < q)
  | _, _ => false

/-- Error taxonomy of the module, from the spec: `InvalidDomain` for a
reversed finite ordering, `InvalidArgument` for bad tolerances or
counts, `InvalidConfiguration` for an internal rule-table mismatch. -/
inductive QuadError where
  | InvalidDomain : QuadError
  | InvalidArgument : QuadError
  | InvalidConfiguration : QuadError
deriving DecidableEq

/-- The two Gauss-Kronrod rule families of the module: the 15-point
rule used for infinite domains and the 21-point rule used for finite
domains. -/
inductive RuleFamily where
  | gk15 : RuleFamily
  | gk21 : RuleFamily
deriving DecidableEq

/-- Number of Kronrod nodes of a rule family. -/
def ruleN : RuleFamily → ℕ
  | .gk15 => 15
  | .gk21 => 21

/-- Modelled from the spec: the precomputed constant node/weight tables
of the module (15- and 21-point Gauss-Kronrod nodes, Gauss weights and
Gauss-Kronrod weights, and the 64-point Gauss-Hermite nodes and
weights).  Their literal numeric entries live in the implementation
file, which is not part of the fragment, so the development is
parametrised by the tables; the spec fixes only their sizes. -/
structure RuleTables where
  xgk15 : List ℚ
  wg15 : List ℚ
  wgk15 : List ℚ
  xgk21 : List ℚ
  wg21 : List ℚ
  wgk21 : List ℚ
  xh64 : List ℚ
  wh64 : List ℚ

/-- Kronrod node table of a rule family. -/
def RuleTables.xgk (T : RuleTables) : RuleFamily → List ℚ
  | .gk15 => T.xgk15
  | .gk21 => T.xgk21

/-- Gauss weight table of a rule family. -/
def RuleTables.wg (T : RuleTables) : RuleFamily → List ℚ
  | .gk15 => T.wg15
  | .gk21 => T.wg21

/-- Gauss-Kronrod weight table of a rule family. -/
def RuleTables.wgk (T : RuleTables) : RuleFamily → List ℚ
  | .gk15 => T.wgk15
  | .gk21 => T.wgk21

/-- Well-formedness of a table set: each Kronrod node table has the
node count of its fixed order, as the spec requires of the precomputed
constants. -/
def RuleTables.wf (T : RuleTables) : Prop :=
  T.xgk15.length = 15 ∧ T.xgk21.length = 21

/-- Working storage of the adaptive driver: the flattened subinterval
sequence (the subinterval at logical position `i` occupies slots `2*i`
and `2*i+1`), and the parallel per-subinterval estimate and error
sequences, as in the spec's data model. -/
structure QState where
  subs : List ℚ
  q : List ℚ
  err : List ℚ
deriving DecidableEq

/-- Affine map sending a canonical node `x ∈ [-1,1]` to the subinterval
`[lo, hi]`, as in the spec of the Kronrod evaluator. -/
def mapNode (lo hi x : ℚ) : ℚ :=
  (hi - lo) / 2 * x + (hi + lo) / 2

/-- Modelled from the spec (the implementation file is missing):
integral estimate of `f` on `[lo, hi]` by the higher-order Kronrod
weights: nodes are affinely mapped from `[-1,1]` to `[lo, hi]` and the
node-weight products are summed in the fixed node order, scaled by the
half-width `(hi - lo) / 2`. -/
def subEst (f : ℚ → ℚ) (xgk wgk : List ℚ) (lo hi : ℚ) : ℚ :=
  (hi - lo) / 2 *
    ((List.range xgk.length).map
      fun j => wgk.getD j 0 * f (mapNode lo hi (xgk.getD j 0))).sum

/-- Modelled from the spec (the implementation file is missing):
Gauss-order estimate of `f` on `[lo, hi]`, using the Gauss weights on
the shared nodes of the nested pair (the odd-indexed Kronrod nodes). -/
def subGauss (f : ℚ → ℚ) (xgk wg : List ℚ) (lo hi : ℚ) : ℚ :=
  (hi - lo) / 2 *
    ((List.range wg.length).map
      fun j => wg.getD j 0 * f (mapNode lo hi (xgk.getD (2 * j + 1) 0))).sum

/-- Modelled from the spec (the implementation file is missing):
per-subinterval error estimate, the discrepancy between the Gauss-order
and Kronrod-order estimates on the subinterval.  The spec mentions an
additional stability correction but does not determine its formula, so
the plain absolute discrepancy is used. -/
def subErr (f : ℚ → ℚ) (xgk wg wgk : List ℚ) (lo hi : ℚ) : ℚ :=
  |subEst f xgk wgk lo hi - subGauss f xgk wg lo hi|

/-- Points at which the Kronrod evaluator evaluates the caller's
function on the subinterval `[lo, hi]`: the affinely mapped nodes, in
table order. -/
def gkNodes (xgk : List ℚ) (lo hi : ℚ) : List ℚ :=
  xgk.map (mapNode lo hi)

/-- The subintervals held in a flattened subinterval sequence: logical
position `i` is the pair at slots `2*i` and `2*i+1`. -/
def subList (subs : List ℚ) : List (ℚ × ℚ) :=
  (List.range (subs.length / 2)).map
    fun i => (subs.getD (2 * i) 0, subs.getD (2 * i + 1) 0)

/-- Modelled from the spec (the implementation file is missing):
`CIntegration::evaluate_quadgk`.  Given the function, the order `n`,
the node/weight tables and the working state, it first performs the
defensive check that the node table has `n` entries (failing with
`InvalidConfiguration` otherwise), then computes for every subinterval
an integral estimate and an error estimate, overwriting the
caller-supplied estimate and error sequences at the matching indices
and leaving the subinterval sequence untouched.  The second component
of the result is the list of points the function was evaluated at. -/
def evaluate_quadgk (f : ℚ → ℚ) (n : ℕ) (xgk wg wgk : List ℚ)
    (st : QState) : Except QuadError (QState × List ℚ) :=
  if xgk.length ≠ n then .error .InvalidConfiguration
  else
    let m := st.subs.length / 2
    let ps := subList st.subs
    .ok (⟨st.subs,
          (ps.map fun p => subEst f xgk wgk p.1 p.2) ++ st.q.drop m,
          (ps.map fun p => subErr f xgk wg wgk p.1 p.2) ++ st.err.drop m⟩,
         ps.flatMap fun p => gkNodes xgk p.1 p.2)

/-- Modelled from the spec (the implementation file is missing):
`CIntegration::evaluate_quadgk15`, the order-15 evaluator with the
precomputed 15-point tables. -/
def evaluate_quadgk15 (T : RuleTables) (f : ℚ → ℚ)
    (st : QState) : Except QuadError (QState × List ℚ) :=
  if T.xgk15.length ≠ 15 then .error .InvalidConfiguration
  else
    let m := st.subs.length / 2
    let ps := subList st.subs
    .ok (⟨st.subs,
          (ps.map fun p => subEst f T.xgk15 T.wgk15 p.1 p.2) ++ st.q.drop m,
          (ps.map fun p => subErr f T.xgk15 T.wg15 T.wgk15 p.1 p.2) ++ st.err.drop m⟩,
         ps.flatMap fun p => gkNodes T.xgk15 p.1 p.2)

/-- Modelled from the spec (the implementation file is missing):
`CIntegration::evaluate_quadgk21`, the order-21 evaluator with the
precomputed 21-point tables. -/
def evaluate_quadgk21 (T : RuleTables) (f : ℚ → ℚ)
    (st : QState) : Except QuadError (QState × List ℚ) :=
  if T.xgk21.length ≠ 21 then .error .InvalidConfiguration
  else
    let m := st.subs.length / 2
    let ps := subList st.subs
    .ok (⟨st.subs,
          (ps.map fun p => subEst f T.xgk21 T.wgk21 p.1 p.2) ++ st.q.drop m,
          (ps.map fun p => subErr f T.xgk21 T.wg21 T.wgk21 p.1 p.2) ++ st.err.drop m⟩,
         ps.flatMap fun p => gkNodes T.xgk21 p.1 p.2)

/-- Total integral estimate over a flattened subinterval sequence: the
sum of the per-subinterval Kronrod estimates. -/
def gkEstTotal (f : ℚ → ℚ) (xgk wgk : List ℚ) (subs : List ℚ) : ℚ :=
  ((subList subs).map fun p => subEst f xgk wgk p.1 p.2).sum

/-- Total error bound over a flattened subinterval sequence: the sum of
the per-subinterval error estimates. -/
def gkErrTotal (f : ℚ → ℚ) (xgk wg wgk : List ℚ) (subs : List ℚ) : ℚ :=
  ((subList subs).map fun p => subErr f xgk wg wgk p.1 p.2).sum

/-- The successful-termination test of the adaptive loop: the total
error bound is at most `max abs_tol (rel_tol * |total estimate|)`. -/
def tolMet (f : ℚ → ℚ) (xgk wg wgk : List ℚ) (atol rtol : ℚ)
    (subs : List ℚ) : Prop :=
  gkErrTotal f xgk wg wgk subs ≤
    max atol (rtol * |gkEstTotal f xgk wgk subs|)

instance (f : ℚ → ℚ) (xgk wg wgk : List ℚ) (atol rtol : ℚ)
    (subs : List ℚ) : Decidable (tolMet f xgk wg wgk atol rtol subs) := by
  unfold tolMet
  exact inferInstance

/-- Modelled from the spec (the implementation file is missing): the
subdivision step of the adaptive loop.  Every active subinterval is
replaced by its two half-width halves (the spec allows bisect-all as
one of its two admissible policies and leaves the choice to the
implementation). -/
def bisectAll (subs : List ℚ) : List ℚ :=
  (subList subs).flatMap fun p => [p.1, (p.1 + p.2) / 2, (p.1 + p.2) / 2, p.2]

/-- Modelled from the spec (the implementation file is missing): the
initial partition of the finite working domain `[A, B]` into `sn`
equal subintervals, flattened. -/
def initSubs (A B : ℚ) (sn : ℕ) : List ℚ :=
  (List.range sn).flatMap
    fun i => [A + (i : ℚ) * ((B - A) / (sn : ℚ)),
              A + ((i : ℚ) + 1) * ((B - A) / (sn : ℚ))]

/-- Modelled from the spec (the implementation file is missing): the
integrand actually evaluated by the adaptive loop.  For finite bounds
it is the caller's function itself; for a semi-infinite or
doubly-infinite domain a variable substitution maps the domain to a
finite one and the integrand is adjusted by the substitution's
Jacobian.  The spec does not fix the particular substitution, so a
standard rational map is used for each infinite case. -/
def substFn (f : ℚ → ℚ) : Bnd → Bnd → (ℚ → ℚ)
  | .fin _, .fin _ => f
  | .fin a, .pinf => fun t => f (a + t / (1 - t)) * (1 / (1 - t) ^ 2)
  | .ninf, .fin b => fun t => f (b - (1 - t) / t) * (1 / t ^ 2)
  | .ninf, .pinf => fun t => f (t / (1 - t ^ 2)) * ((1 + t ^ 2) / (1 - t ^ 2) ^ 2)
  | _, _ => f

/-- Lower end of the finite working domain produced by the
substitution of `substFn`. -/
def substLo : Bnd → Bnd → ℚ
  | .fin a, .fin _ => a
  | .ninf, .pinf => -1
  | _, _ => 0

/-- Upper end of the finite working domain produced by the
substitution of `substFn`. -/
def substHi : Bnd → Bnd → ℚ
  | .fin _, .fin b => b
  | _, _ => 1

/-- Rule family selected from the domain kind: the 21-point family for
a finite domain, the 15-point family when either bound is infinite. -/
def ruleFor : Bnd → Bnd → RuleFamily
  | .fin _, .fin _ => .gk21
  | _, _ => .gk15

/-- Modelled from the spec (the implementation file is missing): the
adaptive loop of `integrate_quadgk`.  With `fuel` iterations left it
invokes the Kronrod evaluator on the working state, forms the total
estimate and total error bound as the sums of the per-subinterval
results, returns the total estimate when the tolerance test succeeds
or the budget is exhausted, and otherwise bisects every subinterval
and recurses.  The second component accumulates the evaluation points
of the caller's function.  `fuel = 0` is never reached: the driver
validates `max_iter ≥ 1`. -/
def adaptLoop (f : ℚ → ℚ) (n : ℕ) (xgk wg wgk : List ℚ)
    (atol rtol : ℚ) : ℕ → QState → Except QuadError (ℚ × List ℚ)
  | 0, _ => .ok (0, [])
  | fuel + 1, st =>
    match evaluate_quadgk f n xgk wg wgk st with
    | .error e => .error e
    | .ok (st2, cs) =>
      let m := st2.subs.length / 2
      let qt := (st2.q.take m).sum
      let et := (st2.err.take m).sum
      if et ≤ max atol (rtol * |qt|) ∨ fuel = 0 then .ok (qt, cs)
      else
        match adaptLoop f n xgk wg wgk atol rtol fuel
            ⟨bisectAll st2.subs, st2.q, st2.err⟩ with
        | .error e => .error e
        | .ok (v, cs2) => .ok (v, cs ++ cs2)

/-- Embedding of the header's `uint32_t max_iter` parameter type: an
unsigned 32-bit integer. -/
abbrev MaxIterType := Fin 4294967296

deriving instance DecidableEq for Except

/-- Observable outcome of a call to `integrate_quadgk`: the returned
value or error, the arguments the caller's function was evaluated at
(in order), the rule family used and the finite working domain (the
latter two are `none` when the call fails before any computation or
returns on equal bounds). -/
structure GKResult where
  value : Except QuadError ℚ
  calls : List ℚ
  rule : Option RuleFamily
  dom : Option (ℚ × ℚ)
deriving DecidableEq

/-- Modelled from the spec (the implementation file is missing):
`CIntegration::integrate_quadgk`.  The parameter list, default values
and parameter types are those of the header declaration
(`abs_tol = 1e-10`, `rel_tol = 1e-5`, `uint32_t max_iter = 1000`,
`index_t sn = 10`).  Per the spec: equal bounds return `0` without
invoking the evaluator; `a > b` fails with `InvalidDomain`;
non-positive tolerances, `max_iter < 1` or `sn < 1` fail with
`InvalidArgument` (non-finiteness of a tolerance has no counterpart in
the exact rational embedding); otherwise the domain kind selects the
rule family and the substitution, the working domain is split into
`sn` equal subintervals and the adaptive loop runs for at most
`max_iter` iterations. -/
def integrate_quadgk (T : RuleTables) (f : ℚ → ℚ) (a b : Bnd)
    (abs_tol : ℚ := 1 / 10000000000) (rel_tol : ℚ := 1 / 100000)
    (max_iter : MaxIterType := ⟨1000, by decide⟩) (sn : ℤ := 10) : GKResult :=
  if a = b then ⟨.ok 0, [], none, none⟩
  else if Bnd.blt b a then ⟨.error .InvalidDomain, [], none, none⟩
  else if abs_tol ≤ 0 ∨ rel_tol ≤ 0 ∨ max_iter.val < 1 ∨ sn < 1 then
    ⟨.error .InvalidArgument, [], none, none⟩
  else
    let rule := ruleFor a b
    let A := substLo a b
    let B := substHi a b
    match adaptLoop (substFn f a b) (ruleN rule) (T.xgk rule) (T.wg rule)
        (T.wgk rule) abs_tol rel_tol max_iter.val
        ⟨initSubs A B sn.toNat, [], []⟩ with
    | .ok (v, cs) => ⟨.ok v, cs, some rule, some (A, B)⟩
    | .error e => ⟨.error e, [], some rule, some (A, B)⟩

/-- Modelled from the spec (the implementation file is missing):
`CIntegration::evaluate_quadgh`, the Gauss-Hermite evaluator of order
`n`: the sum of `wh[i] * f(xh[i])` over `i < n`, in table order.  The
second component is the list of points `f` was evaluated at. -/
def evaluate_quadgh (f : ℚ → ℚ) (n : ℕ) (xh wh : List ℚ) : ℚ × List ℚ :=
  (((List.range n).map fun i => wh.getD i 0 * f (xh.getD i 0)).sum,
   (List.range n).map fun i => xh.getD i 0)

/-- Modelled from the spec (the implementation file is missing):
`CIntegration::evaluate_quadgh64`, the order-64 Gauss-Hermite
evaluator with the precomputed 64-point tables. -/
def evaluate_quadgh64 (T : RuleTables) (f : ℚ → ℚ) : ℚ × List ℚ :=
  evaluate_quadgh f 64 T.xh64 T.wh64

/-- Modelled from the spec (the implementation file is missing):
`CIntegration::integrate_quadgh`, a single non-adaptive pass of the
64-point Gauss-Hermite rule. -/
def integrate_quadgh (T : RuleTables) (f : ℚ → ℚ) : ℚ × List ℚ :=
  evaluate_quadgh64 T f

/-- A concrete table set of the well-formed sizes, used to instantiate
the theorems on closed inputs. -/
def sampleTables : RuleTables :=
  ⟨(List.range 15).map fun i => (i : ℚ), List.replicate 7 1, List.replicate 15 1,
   (List.range 21).map fun i => (i : ℚ), List.replicate 10 1, List.replicate 21 1,
   (List.range 64).map fun i => (i : ℚ), List.replicate 64 1⟩

lemma blt_irrefl (a : Bnd) : Bnd.blt a a = false := by
  cases a <;> simp [Bnd.blt]

lemma blt_ne {a b : Bnd} (h : Bnd.blt a b = true) : a ≠ b := by
  intro hc
  rw [hc, blt_irrefl] at h
  exact Bool.false_ne_true h

lemma range_map_getD_eq_self : ∀ (xs : List ℚ) (n : ℕ), xs.length = n →
    (List.range n).map (fun i => xs.getD i 0) = xs := by
  intro xs
  induction xs with
  | nil => intro n h; simp at h; simp [h.symm]
  | cons x xs ih =>
    intro n h
    cases n with
    | zero => simp at h
    | succ k =>
      simp only [List.length_cons, Nat.succ.injEq] at h
      rw [List.range_succ_eq_map, List.map_cons, List.map_map]
      simp only [List.getD_cons_zero, Function.comp_def, List.getD_cons_succ]
      rw [ih k h]

lemma range_map_getD_zip (g : ℚ → ℚ → ℚ) : ∀ (n : ℕ) (xs ys : List ℚ),
    xs.length = n → ys.length = n →
    (List.range n).map (fun i => g (xs.getD i 0) (ys.getD i 0)) =
      (xs.zip ys).map fun p => g p.1 p.2 := by
  intro n
  induction n with
  | zero =>
    intro xs ys hx hy
    rw [List.length_eq_zero] at hx hy
    simp [hx, hy]
  | succ k ih =>
    intro xs ys hx hy
    cases xs with
    | nil => simp at hx
    | cons x xs =>
      cases ys with
      | nil => simp at hy
      | cons y ys =>
        simp only [List.length_cons, Nat.succ.injEq] at hx hy
        rw [List.range_succ_eq_map, List.map_cons, List.map_map]
        simp only [List.getD_cons_zero, List.zip_cons_cons, List.map_cons, Function.comp_def,
          List.getD_cons_succ]
        rw [ih xs ys hx hy]

/-- Claim C10: the `max_iter` parameter of `integrate_quadgk` has an
unsigned 32-bit integer type, so every value passable through the
declared interface satisfies `max_iter ≥ 0`, is bounded above by
`2^32 - 1`, and can violate the precondition `max_iter ≥ 1` only by
being exactly `0`. -/
theorem max_iter_unsigned_range (m : MaxIterType) :
    0 ≤ m.val ∧ m.val ≤ 2 ^ 32 - 1 ∧ (¬ 1 ≤ m.val ↔ m.val = 0) := by
  have hlt : m.val < 4294967296 := m.isLt
  have h32 : (2 : ℕ) ^ 32 - 1 = 4294967295 := by norm_num
  exact ⟨Nat.zero_le _, by omega, by omega⟩

/-- Claim C7: `integrate_quadgk` takes `(f, a, b, abs_tol, rel_tol,
max_iter, sn)` with default values `abs_tol = 1e-10`,
`rel_tol = 1e-5`, `max_iter = 1000` and `sn = 10`, so a call supplying
only the function and the bounds behaves exactly as a call supplying
those default tolerance, iteration and subdivision values. -/
theorem integrate_quadgk_default_args (T : RuleTables) (f : ℚ → ℚ) (a b : Bnd) :
    integrate_quadgk T f a b =
      integrate_quadgk T f a b (1 / 10000000000) (1 / 100000) ⟨1000, by decide⟩ 10 :=
  rfl

/-- Claim C2: for every function and every pair of equal bounds,
whatever the tolerances and iteration parameters, `integrate_quadgk`
returns exactly `0` and never invokes the function's evaluate
operation. -/
theorem integrate_quadgk_equal_bounds (T : RuleTables) (f : ℚ → ℚ) (a : Bnd)
    (atol rtol : ℚ) (mi : MaxIterType) (sn : ℤ) :
    (integrate_quadgk T f a a atol rtol mi sn).value = .ok 0 ∧
    (integrate_quadgk T f a a atol rtol mi sn).calls = [] := by
  simp [integrate_quadgk]

/-- Claim C3: for every function and finite bounds with `a > b`,
`integrate_quadgk` fails with `InvalidDomain`; the failure is surfaced
before any computation begins (the function is never evaluated) and no
partial result is returned. -/
theorem integrate_quadgk_invalid_domain (T : RuleTables) (f : ℚ → ℚ)
    (qa qb : ℚ) (atol rtol : ℚ) (mi : MaxIterType) (sn : ℤ) (h : qb < qa) :
    (integrate_quadgk T f (.fin qa) (.fin qb) atol rtol mi sn).value =
      .error .InvalidDomain ∧
    (integrate_quadgk T f (.fin qa) (.fin qb) atol rtol mi sn).calls = [] := by
  have hlt : Bnd.blt (.fin qb) (.fin qa) = true := by
    simp [Bnd.blt, h]
  have hne : (Bnd.fin qa) ≠ (Bnd.fin qb) := by
    intro hc
    injection hc with hc'
    exact absurd hc' (ne_of_gt h)
  simp [integrate_quadgk, hne, hlt]

theorem integrate_quadgk_invalid_domain_witness :
    (integrate_quadgk sampleTables id (.fin 1) (.fin 0) 1 1 ⟨5, by decide⟩ 2).value =
      .error .InvalidDomain ∧
    (integrate_quadgk sampleTables id (.fin 1) (.fin 0) 1 1 ⟨5, by decide⟩ 2).calls = [] :=
  integrate_quadgk_invalid_domain sampleTables id 1 0 1 1 ⟨5, by decide⟩ 2 (by norm_num)

/-- Claim C9: the order-15 evaluator coincides with the generic
Kronrod evaluator invoked with `n = 15` and the precomputed 15-point
tables, and the order-21 evaluator coincides with the generic
evaluator invoked with `n = 21` and the 21-point tables, on every
function and every working state. -/
theorem evaluate_quadgk_specialized (T : RuleTables) (f : ℚ → ℚ) (st : QState) :
    evaluate_quadgk15 T f st = evaluate_quadgk f 15 T.xgk15 T.wg15 T.wgk15 st ∧
    evaluate_quadgk21 T f st = evaluate_quadgk f 21 T.xgk21 T.wg21 T.wgk21 st :=
  ⟨rfl, rfl⟩

/-- Claim C4: `integrate_quadgh f` is the sum over the 64 precomputed
Gauss-Hermite (node, weight) pairs of `weight * f(node)`, computed in
a single pass that evaluates `f` exactly 64 times, once at each node,
with no error estimate and no iteration. -/
theorem integrate_quadgh_spec (T : RuleTables) (f : ℚ → ℚ)
    (hx : T.xh64.length = 64) (hw : T.wh64.length = 64) :
    (integrate_quadgh T f).1 =
      ((T.xh64.zip T.wh64).map fun p => p.2 * f p.1).sum ∧
    (integrate_quadgh T f).2 = T.xh64 ∧
    (integrate_quadgh T f).2.length = 64 := by
  unfold integrate_quadgh evaluate_quadgh64 evaluate_quadgh
  refine ⟨?_, ?_, ?_⟩
  · have h := range_map_getD_zip (fun x w => w * f x) 64 T.xh64 T.wh64 hx hw
    simpa using congrArg List.sum h
  · simpa using range_map_getD_eq_self T.xh64 64 hx
  · have h := range_map_getD_eq_self T.xh64 64 hx
    simp only [h]
    simpa using hx

theorem integrate_quadgh_spec_witness :
    (integrate_quadgh sampleTables id).1 =
      ((sampleTables.xh64.zip sampleTables.wh64).map fun p => p.2 * id p.1).sum ∧
    (integrate_quadgh sampleTables id).2 = sampleTables.xh64 ∧
    (integrate_quadgh sampleTables id).2.length = 64 :=
  integrate_quadgh_spec sampleTables id (by decide) (by decide)

lemma subList_map_length (g : ℚ × ℚ → ℚ) (subs : List ℚ) :
    ((subList subs).map g).length = subs.length / 2 := by
  simp [subList]

lemma subList_map_getD (g : ℚ × ℚ → ℚ) (subs : List ℚ) (i : ℕ)
    (hi : i < subs.length / 2) :
    ((subList subs).map g).getD i 0 =
      g (subs.getD (2 * i) 0, subs.getD (2 * i + 1) 0) := by
  unfold subList
  rw [List.map_map, List.getD_eq_getElem?_getD, List.getElem?_map,
    List.getElem?_range hi]
  rfl

/-- Claim C8: the Kronrod evaluator leaves the subinterval sequence
unchanged and writes only the caller-supplied estimate and error
sequences, at the indices matching the subinterval indices: entry `i`
of the estimate (resp. error) sequence receives the estimate (resp.
error) of subinterval `i`, and both sequences are untouched beyond the
subinterval count.  The 15- and 21-point specializations are instances
of this statement (they coincide with the generic evaluator). -/
theorem evaluate_quadgk_frame (f : ℚ → ℚ) (n : ℕ) (xgk wg wgk : List ℚ)
    (st st' : QState) (cs : List ℚ)
    (h : evaluate_quadgk f n xgk wg wgk st = .ok (st', cs)) :
    st'.subs = st.subs ∧
    st'.q.drop (st.subs.length / 2) = st.q.drop (st.subs.length / 2) ∧
    st'.err.drop (st.subs.length / 2) = st.err.drop (st.subs.length / 2) ∧
    ∀ i < st.subs.length / 2,
      st'.q.getD i 0 =
        subEst f xgk wgk (st.subs.getD (2 * i) 0) (st.subs.getD (2 * i + 1) 0) ∧
      st'.err.getD i 0 =
        subErr f xgk wg wgk (st.subs.getD (2 * i) 0) (st.subs.getD (2 * i + 1) 0) := by
  by_cases hn : xgk.length = n
  · rw [evaluate_quadgk, if_neg (by simp [hn])] at h
    simp only [Except.ok.injEq, Prod.mk.injEq] at h
    obtain ⟨hst, -⟩ := h
    subst hst
    refine ⟨rfl, ?_, ?_, ?_⟩
    · exact List.drop_left' (subList_map_length _ st.subs)
    · exact List.drop_left' (subList_map_length _ st.subs)
    · intro i hi
      constructor
      · rw [List.getD_append _ _ _ _ (by rw [subList_map_length]; exact hi),
          subList_map_getD _ st.subs i hi]
      · rw [List.getD_append _ _ _ _ (by rw [subList_map_length]; exact hi),
          subList_map_getD _ st.subs i hi]
  · rw [evaluate_quadgk, if_pos (by simp [hn])] at h
    exact absurd h (by simp)

theorem evaluate_quadgk_frame_witness :
    (⟨[0, 1], [1 / 2], [1 / 2]⟩ : QState).subs = (⟨[0, 1], [], []⟩ : QState).subs ∧
    (⟨[0, 1], [1 / 2], [1 / 2]⟩ : QState).q.drop ((⟨[0, 1], [], []⟩ : QState).subs.length / 2) =
      (⟨[0, 1], [], []⟩ : QState).q.drop ((⟨[0, 1], [], []⟩ : QState).subs.length / 2) ∧
    (⟨[0, 1], [1 / 2], [1 / 2]⟩ : QState).err.drop ((⟨[0, 1], [], []⟩ : QState).subs.length / 2) =
      (⟨[0, 1], [], []⟩ : QState).err.drop ((⟨[0, 1], [], []⟩ : QState).subs.length / 2) ∧
    ∀ i < (⟨[0, 1], [], []⟩ : QState).subs.length / 2,
      (⟨[0, 1], [1 / 2], [1 / 2]⟩ : QState).q.getD i 0 =
        subEst id [0] [2] ((⟨[0, 1], [], []⟩ : QState).subs.getD (2 * i) 0)
          ((⟨[0, 1], [], []⟩ : QState).subs.getD (2 * i + 1) 0) ∧
      (⟨[0, 1], [1 / 2], [1 / 2]⟩ : QState).err.getD i 0 =
        subErr id [0] [] [2] ((⟨[0, 1], [], []⟩ : QState).subs.getD (2 * i) 0)
          ((⟨[0, 1], [], []⟩ : QState).subs.getD (2 * i + 1) 0) :=
  evaluate_quadgk_frame id 1 [0] [] [2] ⟨[0, 1], [], []⟩ ⟨[0, 1], [1 / 2], [1 / 2]⟩
    [1 / 2] (by norm_num [evaluate_quadgk, subList, subEst, subGauss, subErr, gkNodes,
      mapNode, List.range_succ])

lemma evaluate_quadgk_eq_ok (f : ℚ → ℚ) (n : ℕ) (xgk wg wgk : List ℚ)
    (hx : xgk.length = n) (st : QState) :
    evaluate_quadgk f n xgk wg wgk st = .ok
      (⟨st.subs,
        ((subList st.subs).map fun p => subEst f xgk wgk p.1 p.2) ++
          st.q.drop (st.subs.length / 2),
        ((subList st.subs).map fun p => subErr f xgk wg wgk p.1 p.2) ++
          st.err.drop (st.subs.length / 2)⟩,
       (subList st.subs).flatMap fun p => gkNodes xgk p.1 p.2) := by
  rw [evaluate_quadgk, if_neg (by simp [hx])]

lemma take_of_written (g : ℚ × ℚ → ℚ) (subs rest : List ℚ) :
    ((((subList subs).map g) ++ rest).take (subs.length / 2)) =
      (subList subs).map g :=
  List.take_left' (subList_map_length g subs)

lemma adaptLoop_succ_unfold (f : ℚ → ℚ) (n : ℕ) (xgk wg wgk : List ℚ)
    (atol rtol : ℚ) (hx : xgk.length = n) (fuel : ℕ) (subs q0 e0 : List ℚ) :
    adaptLoop f n xgk wg wgk atol rtol (fuel + 1) ⟨subs, q0, e0⟩ =
      if gkErrTotal f xgk wg wgk subs ≤
          max atol (rtol * |gkEstTotal f xgk wgk subs|) ∨ fuel = 0
      then .ok (gkEstTotal f xgk wgk subs,
        (subList subs).flatMap fun p => gkNodes xgk p.1 p.2)
      else
        match adaptLoop f n xgk wg wgk atol rtol fuel
            ⟨bisectAll subs,
             ((subList subs).map fun p => subEst f xgk wgk p.1 p.2) ++
               q0.drop (subs.length / 2),
             ((subList subs).map fun p => subErr f xgk wg wgk p.1 p.2) ++
               e0.drop (subs.length / 2)⟩ with
        | .error e => .error e
        | .ok (v, cs2) => .ok (v,
            ((subList subs).flatMap fun p => gkNodes xgk p.1 p.2) ++ cs2) := by
  rw [adaptLoop, evaluate_quadgk_eq_ok f n xgk wg wgk hx ⟨subs, q0, e0⟩]
  simp only [take_of_written, gkEstTotal, gkErrTotal]

lemma adaptLoop_stops_first (f : ℚ → ℚ) (n : ℕ) (xgk wg wgk : List ℚ)
    (atol rtol : ℚ) (hx : xgk.length = n) :
    ∀ (j fuel : ℕ) (subs q0 e0 : List ℚ), j < fuel →
      tolMet f xgk wg wgk atol rtol (bisectAll^[j] subs) →
      (∀ i < j, ¬ tolMet f xgk wg wgk atol rtol (bisectAll^[i] subs)) →
      ∃ cs, adaptLoop f n xgk wg wgk atol rtol fuel ⟨subs, q0, e0⟩ =
        .ok (gkEstTotal f xgk wgk (bisectAll^[j] subs), cs) := by
  intro j
  induction j with
  | zero =>
    intro fuel subs q0 e0 hlt hmet _
    obtain ⟨k, rfl⟩ : ∃ k, fuel = k + 1 := ⟨fuel - 1, by omega⟩
    rw [adaptLoop_succ_unfold f n xgk wg wgk atol rtol hx]
    rw [Function.iterate_zero_apply] at hmet ⊢
    have hmet2 : gkErrTotal f xgk wg wgk subs ≤
        max atol (rtol * |gkEstTotal f xgk wgk subs|) := hmet
    rw [if_pos (Or.inl hmet2)]
    exact ⟨_, rfl⟩
  | succ j ih =>
    intro fuel subs q0 e0 hlt hmet hfirst
    obtain ⟨k, rfl⟩ : ∃ k, fuel = k + 1 := ⟨fuel - 1, by omega⟩
    rw [adaptLoop_succ_unfold f n xgk wg wgk atol rtol hx]
    have h0 : ¬ (gkErrTotal f xgk wg wgk subs ≤
        max atol (rtol * |gkEstTotal f xgk wgk subs|)) := by
      have h0' := hfirst 0 (Nat.succ_pos j)
      rwa [Function.iterate_zero_apply] at h0'
    have hk : k ≠ 0 := by omega
    rw [if_neg (not_or.mpr ⟨h0, hk⟩)]
    have hmet' : tolMet f xgk wg wgk atol rtol (bisectAll^[j] (bisectAll subs)) := by
      rwa [← Function.iterate_succ_apply]
    have hfirst' : ∀ i < j,
        ¬ tolMet f xgk wg wgk atol rtol (bisectAll^[i] (bisectAll subs)) := by
      intro i hi
      rw [← Function.iterate_succ_apply]
      exact hfirst (i + 1) (by omega)
    obtain ⟨cs2, hcs2⟩ := ih k (bisectAll subs)
      (((subList subs).map fun p => subEst f xgk wgk p.1 p.2) ++
        q0.drop (subs.length / 2))
      (((subList subs).map fun p => subErr f xgk wg wgk p.1 p.2) ++
        e0.drop (subs.length / 2))
      (by omega) hmet' hfirst'
    rw [hcs2]
    exact ⟨((subList subs).flatMap fun p => gkNodes xgk p.1 p.2) ++ cs2,
      by rw [Function.iterate_succ_apply]⟩

lemma adaptLoop_exhausts (f : ℚ → ℚ) (n : ℕ) (xgk wg wgk : List ℚ)
    (atol rtol : ℚ) (hx : xgk.length = n) :
    ∀ (fuel : ℕ) (subs q0 e0 : List ℚ), 1 ≤ fuel →
      (∀ i < fuel, ¬ tolMet f xgk wg wgk atol rtol (bisectAll^[i] subs)) →
      ∃ cs, adaptLoop f n xgk wg wgk atol rtol fuel ⟨subs, q0, e0⟩ =
        .ok (gkEstTotal f xgk wgk (bisectAll^[fuel - 1] subs), cs) := by
  intro fuel
  induction fuel with
  | zero =>
    intro subs q0 e0 h1
    omega
  | succ k ih =>
    intro subs q0 e0 h1 hall
    rw [adaptLoop_succ_unfold f n xgk wg wgk atol rtol hx]
    rcases Nat.eq_zero_or_pos k with hk0 | hkpos
    · subst hk0
      rw [if_pos (Or.inr rfl)]
      exact ⟨(subList subs).flatMap fun p => gkNodes xgk p.1 p.2, by simp⟩
    · have h0 : ¬ (gkErrTotal f xgk wg wgk subs ≤
          max atol (rtol * |gkEstTotal f xgk wgk subs|)) := by
        have h0' := hall 0 (Nat.succ_pos k)
        rwa [Function.iterate_zero_apply] at h0'
      rw [if_neg (not_or.mpr ⟨h0, by omega⟩)]
      obtain ⟨cs2, hcs2⟩ := ih (bisectAll subs)
        (((subList subs).map fun p => subEst f xgk wgk p.1 p.2) ++
          q0.drop (subs.length / 2))
        (((subList subs).map fun p => subErr f xgk wg wgk p.1 p.2) ++
          e0.drop (subs.length / 2))
        hkpos
        (by
          intro i hi
          rw [← Function.iterate_succ_apply]
          exact hall (i + 1) (by omega))
      have hiter : bisectAll^[k - 1] (bisectAll subs) = bisectAll^[k] subs := by
        conv_rhs => rw [show k = (k - 1) + 1 by omega]
        rw [Function.iterate_succ_apply]
      rw [hiter] at hcs2
      rw [hcs2]
      exact ⟨((subList subs).flatMap fun p => gkNodes xgk p.1 p.2) ++ cs2, by simp⟩

lemma blt_asymm {a b : Bnd} (h : Bnd.blt a b = true) : Bnd.blt b a = false := by
  cases a <;> cases b <;> simp_all [Bnd.blt]
  exact le_of_lt (by assumption)

lemma integrate_quadgk_main (T : RuleTables) (f : ℚ → ℚ) (a b : Bnd)
    (atol rtol : ℚ) (mi : MaxIterType) (sn : ℤ)
    (hab : Bnd.blt a b = true) (ha : 0 < atol) (hr : 0 < rtol)
    (hm : 1 ≤ mi.val) (hs : 1 ≤ sn) :
    integrate_quadgk T f a b atol rtol mi sn =
      match adaptLoop (substFn f a b) (ruleN (ruleFor a b)) (T.xgk (ruleFor a b))
          (T.wg (ruleFor a b)) (T.wgk (ruleFor a b)) atol rtol mi.val
          ⟨initSubs (substLo a b) (substHi a b) sn.toNat, [], []⟩ with
      | .ok (v, cs) =>
        (⟨.ok v, cs, some (ruleFor a b), some (substLo a b, substHi a b)⟩ : GKResult)
      | .error e =>
        ⟨.error e, [], some (ruleFor a b), some (substLo a b, substHi a b)⟩ := by
  have hne : a ≠ b := blt_ne hab
  have hba : Bnd.blt b a = false := blt_asymm hab
  rw [integrate_quadgk, if_neg hne, if_neg (by simp [hba]),
    if_neg (by simp only [not_or, not_lt, not_le]; exact ⟨ha, hr, hm, hs⟩)]

/-- Claim C1: under valid bounds, positive tolerances, `max_iter ≥ 1`
and `sn ≥ 1`, the adaptive loop of `integrate_quadgk` forms on each
iteration the total estimate as the sum of the per-subinterval
estimates and the total error bound as the sum of the per-subinterval
errors, and it stops successfully, returning the total estimate, at
the first iteration `j` at which the total error bound is at most
`max abs_tol (rel_tol * |total estimate|)` (the working partition at
iteration `j` being the `sn`-way initial partition bisected `j`
times). -/
theorem integrate_quadgk_stops_at_first_tolerance (T : RuleTables) (f : ℚ → ℚ)
    (a b : Bnd) (atol rtol : ℚ) (mi : MaxIterType) (sn : ℤ) (j : ℕ)
    (hT : T.wf) (hab : Bnd.blt a b = true) (ha : 0 < atol) (hr : 0 < rtol)
    (hm : 1 ≤ mi.val) (hs : 1 ≤ sn) (hj : j < mi.val)
    (hmet : tolMet (substFn f a b) (T.xgk (ruleFor a b)) (T.wg (ruleFor a b))
      (T.wgk (ruleFor a b)) atol rtol
      (bisectAll^[j] (initSubs (substLo a b) (substHi a b) sn.toNat)))
    (hfirst : ∀ i < j, ¬ tolMet (substFn f a b) (T.xgk (ruleFor a b))
      (T.wg (ruleFor a b)) (T.wgk (ruleFor a b)) atol rtol
      (bisectAll^[i] (initSubs (substLo a b) (substHi a b) sn.toNat))) :
    (integrate_quadgk T f a b atol rtol mi sn).value =
      .ok (gkEstTotal (substFn f a b) (T.xgk (ruleFor a b)) (T.wgk (ruleFor a b))
        (bisectAll^[j] (initSubs (substLo a b) (substHi a b) sn.toNat))) := by
  have hx : (T.xgk (ruleFor a b)).length = ruleN (ruleFor a b) := by
    cases hrule : ruleFor a b
    · simpa [RuleTables.xgk, ruleN] using hT.1
    · simpa [RuleTables.xgk, ruleN] using hT.2
  rw [integrate_quadgk_main T f a b atol rtol mi sn hab ha hr hm hs]
  obtain ⟨cs, hcs⟩ := adaptLoop_stops_first (substFn f a b) (ruleN (ruleFor a b))
    (T.xgk (ruleFor a b)) (T.wg (ruleFor a b)) (T.wgk (ruleFor a b)) atol rtol hx
    j mi.val (initSubs (substLo a b) (substHi a b) sn.toNat) [] [] hj hmet hfirst
  rw [hcs]

/-- Claim C5: under valid arguments, when all `max_iter` iterations
complete without the tolerance test being met, `integrate_quadgk`
returns the best available total estimate (the one of the last
iteration) and does not fail: non-convergence within `max_iter` is not
reported as an error. -/
theorem integrate_quadgk_non_convergence (T : RuleTables) (f : ℚ → ℚ)
    (a b : Bnd) (atol rtol : ℚ) (mi : MaxIterType) (sn : ℤ)
    (hT : T.wf) (hab : Bnd.blt a b = true) (ha : 0 < atol) (hr : 0 < rtol)
    (hm : 1 ≤ mi.val) (hs : 1 ≤ sn)
    (hall : ∀ i < mi.val, ¬ tolMet (substFn f a b) (T.xgk (ruleFor a b))
      (T.wg (ruleFor a b)) (T.wgk (ruleFor a b)) atol rtol
      (bisectAll^[i] (initSubs (substLo a b) (substHi a b) sn.toNat))) :
    (integrate_quadgk T f a b atol rtol mi sn).value =
      .ok (gkEstTotal (substFn f a b) (T.xgk (ruleFor a b)) (T.wgk (ruleFor a b))
        (bisectAll^[mi.val - 1] (initSubs (substLo a b) (substHi a b) sn.toNat))) := by
  have hx : (T.xgk (ruleFor a b)).length = ruleN (ruleFor a b) := by
    cases hrule : ruleFor a b
    · simpa [RuleTables.xgk, ruleN] using hT.1
    · simpa [RuleTables.xgk, ruleN] using hT.2
  rw [integrate_quadgk_main T f a b atol rtol mi sn hab ha hr hm hs]
  obtain ⟨cs, hcs⟩ := adaptLoop_exhausts (substFn f a b) (ruleN (ruleFor a b))
    (T.xgk (ruleFor a b)) (T.wg (ruleFor a b)) (T.wgk (ruleFor a b)) atol rtol hx
    mi.val (initSubs (substLo a b) (substHi a b) sn.toNat) [] [] hm hall
  rw [hcs]

/-- Claim C6: on every call to `integrate_quadgk` that reaches the
computation (valid bounds, positive tolerances, `max_iter ≥ 1`,
`sn ≥ 1`), the rule family used is the 21-point one exactly when both
bounds are finite (and the 15-point one otherwise), and the loop runs
over the finite working domain produced by the variable substitution
for the domain kind. -/
theorem integrate_quadgk_rule_selection (T : RuleTables) (f : ℚ → ℚ)
    (a b : Bnd) (atol rtol : ℚ) (mi : MaxIterType) (sn : ℤ)
    (hab : Bnd.blt a b = true) (ha : 0 < atol) (hr : 0 < rtol)
    (hm : 1 ≤ mi.val) (hs : 1 ≤ sn) :
    (integrate_quadgk T f a b atol rtol mi sn).rule = some (ruleFor a b) ∧
    (ruleFor a b = .gk21 ↔ ∃ p q, a = .fin p ∧ b = .fin q) ∧
    (integrate_quadgk T f a b atol rtol mi sn).dom =
      some (substLo a b, substHi a b) := by
  have hiff : ruleFor a b = .gk21 ↔ ∃ p q, a = .fin p ∧ b = .fin q := by
    cases a <;> cases b <;> simp [ruleFor]
  rw [integrate_quadgk_main T f a b atol rtol mi sn hab ha hr hm hs]
  cases hres : adaptLoop (substFn f a b) (ruleN (ruleFor a b)) (T.xgk (ruleFor a b))
      (T.wg (ruleFor a b)) (T.wgk (ruleFor a b)) atol rtol mi.val
      ⟨initSubs (substLo a b) (substHi a b) sn.toNat, [], []⟩ with
  | error e => exact ⟨rfl, hiff, rfl⟩
  | ok vc => exact ⟨rfl, hiff, rfl⟩

theorem integrate_quadgk_stops_at_first_tolerance_witness :
    (integrate_quadgk sampleTables (fun _ => 0) (.fin 0) (.fin 1) 1 1
      ⟨1, by decide⟩ 1).value =
      .ok (gkEstTotal (substFn (fun _ => 0) (.fin 0) (.fin 1))
        (sampleTables.xgk (ruleFor (.fin 0) (.fin 1)))
        (sampleTables.wgk (ruleFor (.fin 0) (.fin 1)))
        (bisectAll^[0] (initSubs (substLo (.fin 0) (.fin 1))
          (substHi (.fin 0) (.fin 1)) (1 : ℤ).toNat))) :=
  integrate_quadgk_stops_at_first_tolerance sampleTables (fun _ => 0) (.fin 0) (.fin 1)
    1 1 ⟨1, by decide⟩ 1 0 ⟨by decide, by decide⟩ (by decide) (by norm_num) (by norm_num)
    (by decide) (by decide) (by decide)
    (by norm_num [tolMet, gkErrTotal, gkEstTotal, subErr, subEst, subGauss, subList,
      initSubs, substFn, substLo, substHi, ruleFor, sampleTables, RuleTables.xgk,
      RuleTables.wg, RuleTables.wgk, mapNode, Function.comp_def, List.range_succ])
    (by intro i hi; exact absurd hi (Nat.not_lt_zero i))

theorem integrate_quadgk_non_convergence_witness :
    (integrate_quadgk sampleTables (fun _ => 1) (.fin 0) (.fin 1) (1 / 1000) (1 / 1000)
      ⟨1, by decide⟩ 1).value =
      .ok (gkEstTotal (substFn (fun _ => 1) (.fin 0) (.fin 1))
        (sampleTables.xgk (ruleFor (.fin 0) (.fin 1)))
        (sampleTables.wgk (ruleFor (.fin 0) (.fin 1)))
        (bisectAll^[(⟨1, by decide⟩ : MaxIterType).val - 1]
          (initSubs (substLo (.fin 0) (.fin 1))
            (substHi (.fin 0) (.fin 1)) (1 : ℤ).toNat))) :=
  integrate_quadgk_non_convergence sampleTables (fun _ => 1) (.fin 0) (.fin 1)
    (1 / 1000) (1 / 1000) ⟨1, by decide⟩ 1 ⟨by decide, by decide⟩ (by decide)
    (by norm_num) (by norm_num) (by decide) (by decide)
    (by
      intro i hi
      have hi1 : i < 1 := hi
      have hi0 : i = 0 := by omega
      subst hi0
      norm_num [tolMet, gkErrTotal, gkEstTotal, subErr, subEst, subGauss, subList,
        initSubs, substFn, substLo, substHi, ruleFor, sampleTables, RuleTables.xgk,
        RuleTables.wg, RuleTables.wgk, mapNode, Function.comp_def, List.range_succ,
        abs_eq_max_neg, max_def])

theorem integrate_quadgk_rule_selection_witness :
    (integrate_quadgk sampleTables id .ninf .pinf 1 1 ⟨1, by decide⟩ 1).rule =
      some (ruleFor .ninf .pinf) ∧
    (ruleFor .ninf .pinf = .gk21 ↔ ∃ p q, Bnd.ninf = .fin p ∧ Bnd.pinf = .fin q) ∧
    (integrate_quadgk sampleTables id .ninf .pinf 1 1 ⟨1, by decide⟩ 1).dom =
      some (substLo .ninf .pinf, substHi .ninf .pinf) :=
  integrate_quadgk_rule_selection sampleTables id .ninf .pinf 1 1 ⟨1, by decide⟩ 1
    (by decide) (by norm_num) (by norm_num) (by decide) (by decide)
